import Mathlib

/-!
Shallow embedding of `src/app/components/SnakeGame.tsx`.

The component keeps six pieces of React state: `snake`, `direction`, `food`,
`score`, `gameOver`, `isPlaying`.  Refs (`moveRef`, `gameOverRef`, `foodRef`,
`isPlayingRef`) are kept in sync with the state between events, so in this
sequential-event model each handler simply reads the current state.

JavaScript `%` is the truncated remainder, embedded as `Int.tmod`.
Randomness (`Math.random` draws inside `getRandomFood`) is embedded as an
explicit list of candidate cells `draws`; the do/while loop becomes a
recursion over that list, returning `none` when the provided draws are
exhausted (modelling that the source loop would still be running).
-/

structure Cell where
  x : Int
  y : Int
deriving DecidableEq, Repr

def BOARD_SIZE : Int := 15

def INITIAL_SNAKE : List Cell := [⟨7, 7⟩]

def INITIAL_DIRECTION : Cell := ⟨0, -1⟩

/-- `s.x === c.x && s.y === c.y`, the cell comparison used throughout the source. -/
def cellEq (a b : Cell) : Bool := a.x == b.x && a.y == b.y

/-- `getRandomFood`: rejection sampling — draw a random cell, retry while it hits
the snake.  `draws` is the stream of random draws `{Math.floor(Math.random()*BOARD_SIZE), …}`. -/
def getRandomFood (draws : List Cell) (snake : List Cell) : Option Cell :=
  match draws with
  | [] => none
  | c :: rest =>
      if snake.any (fun s => cellEq s c) then getRandomFood rest snake else some c

structure GameState where
  snake : List Cell
  direction : Cell
  food : Cell
  score : Nat
  gameOver : Bool
  isPlaying : Bool
deriving DecidableEq, Repr

/-- The `newHead` computation of the game loop:
`(prev[0].x + direction.x + BOARD_SIZE) % BOARD_SIZE` (and likewise for `y`). -/
def newHeadOf (h d : Cell) : Cell :=
  ⟨Int.tmod (h.x + d.x + BOARD_SIZE) BOARD_SIZE,
   Int.tmod (h.y + d.y + BOARD_SIZE) BOARD_SIZE⟩

/-- One firing of the `setInterval` callback of the game-loop effect.  The
effect installs the interval only while `!gameOver && isPlaying`, so a tick in
any other state leaves the state untouched.  `none` models the two situations
in which the source would not produce a next state: an empty snake (the source
would fault on `prev[0]`) and exhaustion of the random draws inside
`getRandomFood`. -/
def tick (draws : List Cell) (st : GameState) : Option GameState :=
  if st.gameOver || !st.isPlaying then some st
  else
    match st.snake with
    | [] => none
    | h :: t =>
        let newHead := newHeadOf h st.direction
        if (h :: t).any (fun s => cellEq s newHead) then
          some { st with gameOver := true }
        else if cellEq newHead st.food then
          let newSnake := newHead :: h :: t
          match getRandomFood draws newSnake with
          | some f => some { st with snake := newSnake, food := f, score := st.score + 1 }
          | none => none
        else
          some { st with snake := newHead :: (h :: t).dropLast }

/-- `handleKey`: ignore everything when game over; otherwise start the game on
any key press, then map arrows / WASD to directions, guarded against the exact
opposite of the current `moveRef` value (the pending direction). -/
def handleKey (k : String) (st : GameState) : GameState :=
  if st.gameOver then st
  else
    let st1 := if !st.isPlaying then { st with isPlaying := true } else st
    if k == "ArrowUp" || k == "w" || k == "W" then
      if st1.direction.y != 1 then { st1 with direction := ⟨0, -1⟩ } else st1
    else if k == "ArrowDown" || k == "s" || k == "S" then
      if st1.direction.y != -1 then { st1 with direction := ⟨0, 1⟩ } else st1
    else if k == "ArrowLeft" || k == "a" || k == "A" then
      if st1.direction.x != 1 then { st1 with direction := ⟨-1, 0⟩ } else st1
    else if k == "ArrowRight" || k == "d" || k == "D" then
      if st1.direction.x != -1 then { st1 with direction := ⟨1, 0⟩ } else st1
    else st1

/-- `handleTouchEnd` with swipe deltas `dx = clientX - startX`, `dy = clientY - startY`:
ignore when game over; start the game on any touch; horizontal when
`Math.abs(dx) > Math.abs(dy)`, threshold 20, same reversal guard as keys. -/
def handleTouchEnd (dx dy : Int) (st : GameState) : GameState :=
  if st.gameOver then st
  else
    let st1 := if !st.isPlaying then { st with isPlaying := true } else st
    if dx.natAbs > dy.natAbs then
      if dx > 20 && st1.direction.x != -1 then { st1 with direction := ⟨1, 0⟩ }
      else if dx < -20 && st1.direction.x != 1 then { st1 with direction := ⟨-1, 0⟩ }
      else st1
    else
      if dy > 20 && st1.direction.y != -1 then { st1 with direction := ⟨0, 1⟩ }
      else if dy < -20 && st1.direction.y != 1 then { st1 with direction := ⟨0, -1⟩ }
      else st1

/-- `handleRestart`: rebuild the initial configuration (a fresh food drawn
against `INITIAL_SNAKE`) and clear score / gameOver / isPlaying. -/
def handleRestart (draws : List Cell) : Option GameState :=
  match getRandomFood draws INITIAL_SNAKE with
  | some f =>
      some { snake := INITIAL_SNAKE, direction := INITIAL_DIRECTION, food := f,
             score := 0, gameOver := false, isPlaying := false }
  | none => none

/-- The events the component reacts to. -/
inductive Event where
  | tick (draws : List Cell)
  | key (k : String)
  | touch (dx dy : Int)
  | restart (draws : List Cell)

def stepEv : Event → GameState → Option GameState
  | Event.tick ds, st => tick ds st
  | Event.key k, st => some (handleKey k st)
  | Event.touch dx dy, st => some (handleTouchEnd dx dy st)
  | Event.restart ds, _ => handleRestart ds

def eventDraws : Event → List Cell
  | Event.tick ds => ds
  | Event.key _ => []
  | Event.touch _ _ => []
  | Event.restart ds => ds

def inBoard (c : Cell) : Prop :=
  0 ≤ c.x ∧ c.x < BOARD_SIZE ∧ 0 ≤ c.y ∧ c.y < BOARD_SIZE

instance (c : Cell) : Decidable (inBoard c) := by
  unfold inBoard; infer_instance

/-- `Math.floor(Math.random() * BOARD_SIZE)` only ever produces board
coordinates, so every draw handed to `getRandomFood` is a board cell. -/
def boardDraws (draws : List Cell) : Prop := ∀ c ∈ draws, inBoard c

/-- States reachable from component mount (initial state with a successfully
drawn food) through event steps. -/
inductive Reachable : GameState → Prop where
  | init (draws : List Cell) (f : Cell) (hb : boardDraws draws)
      (h : getRandomFood draws INITIAL_SNAKE = some f) :
      Reachable { snake := INITIAL_SNAKE, direction := INITIAL_DIRECTION, food := f,
                  score := 0, gameOver := false, isPlaying := false }
  | step (e : Event) (st st' : GameState) (hb : boardDraws (eventDraws e))
      (hr : Reachable st) (h : stepEv e st = some st') : Reachable st'

/-- The four direction values the source ever stores. -/
def DIRS : List Cell := [⟨0, -1⟩, ⟨0, 1⟩, ⟨-1, 0⟩, ⟨1, 0⟩]

theorem cellEq_iff (a b : Cell) : cellEq a b = true ↔ a = b := by
  cases a; cases b
  simp [cellEq, Cell.mk.injEq]

theorem any_cellEq_iff (l : List Cell) (c : Cell) :
    (l.any fun s => cellEq s c) = true ↔ c ∈ l := by
  simp [List.any_eq_true, cellEq_iff]

theorem getRandomFood_spec (draws snake : List Cell) (f : Cell)
    (h : getRandomFood draws snake = some f) : f ∉ snake ∧ f ∈ draws := by
  induction draws with
  | nil => simp [getRandomFood] at h
  | cons c rest ih =>
      simp only [getRandomFood] at h
      by_cases hc : (snake.any fun s => cellEq s c) = true
      · rw [if_pos hc] at h
        rcases ih h with ⟨h1, h2⟩
        exact ⟨h1, List.mem_cons_of_mem _ h2⟩
      · rw [if_neg hc] at h
        injection h with h
        subst h
        exact ⟨fun hm => hc ((any_cellEq_iff _ _).2 hm), List.mem_cons_self _ _⟩

theorem getRandomFood_of_free (snake : List Cell) (c : Cell) (hc : c ∉ snake) :
    getRandomFood [c] snake = some c := by
  simp only [getRandomFood]
  rw [if_neg (fun h => hc ((any_cellEq_iff _ _).1 h))]

theorem mem_DIRS_iff (d : Cell) :
    d ∈ DIRS ↔ d = ⟨0, -1⟩ ∨ d = ⟨0, 1⟩ ∨ d = ⟨-1, 0⟩ ∨ d = ⟨1, 0⟩ := by
  simp [DIRS]

theorem tmod_shift_board (a e : Int) (h0 : 0 ≤ a) (he : -1 ≤ e) :
    0 ≤ Int.tmod (a + e + 15) 15 ∧ Int.tmod (a + e + 15) 15 < 15 := by
  rw [Int.tmod_eq_emod (by omega) (by decide)]
  exact ⟨Int.emod_nonneg _ (by decide), Int.emod_lt_of_pos _ (by decide)⟩

theorem tmod_shift_ne (a e : Int) (h0 : 0 ≤ a) (h1 : a < 15)
    (he : e = -1 ∨ e = 1) : Int.tmod (a + e + 15) 15 ≠ a := by
  rw [Int.tmod_eq_emod (by omega) (by decide)]
  rcases he with rfl | rfl <;> omega

theorem newHeadOf_inBoard (c d : Cell) (hc : inBoard c) (hd : d ∈ DIRS) :
    inBoard (newHeadOf c d) := by
  simp only [inBoard] at hc ⊢
  obtain ⟨hx0, _, hy0, _⟩ := hc
  rcases (mem_DIRS_iff d).1 hd with rfl | rfl | rfl | rfl
  · exact ⟨(tmod_shift_board c.x 0 hx0 (by decide)).1, (tmod_shift_board c.x 0 hx0 (by decide)).2,
      (tmod_shift_board c.y (-1) hy0 (by decide)).1, (tmod_shift_board c.y (-1) hy0 (by decide)).2⟩
  · exact ⟨(tmod_shift_board c.x 0 hx0 (by decide)).1, (tmod_shift_board c.x 0 hx0 (by decide)).2,
      (tmod_shift_board c.y 1 hy0 (by decide)).1, (tmod_shift_board c.y 1 hy0 (by decide)).2⟩
  · exact ⟨(tmod_shift_board c.x (-1) hx0 (by decide)).1, (tmod_shift_board c.x (-1) hx0 (by decide)).2,
      (tmod_shift_board c.y 0 hy0 (by decide)).1, (tmod_shift_board c.y 0 hy0 (by decide)).2⟩
  · exact ⟨(tmod_shift_board c.x 1 hx0 (by decide)).1, (tmod_shift_board c.x 1 hx0 (by decide)).2,
      (tmod_shift_board c.y 0 hy0 (by decide)).1, (tmod_shift_board c.y 0 hy0 (by decide)).2⟩

/-- Per-event facts about `handleKey`: the snake, food, score and gameOver
fields are never touched; the game starts unless it is over; the direction
either stays or becomes one of the four unit vectors, guarded against the
exact opposite of the current pending direction. -/
theorem handleKey_fields (k : String) (st : GameState) :
    (handleKey k st).snake = st.snake ∧ (handleKey k st).food = st.food ∧
    (handleKey k st).score = st.score ∧ (handleKey k st).gameOver = st.gameOver ∧
    (handleKey k st).isPlaying = (if st.gameOver = true then st.isPlaying else true) ∧
    ((handleKey k st).direction = st.direction ∨
      (st.gameOver = false ∧
        (((handleKey k st).direction = ⟨0, -1⟩ ∧ st.direction.y ≠ 1) ∨
         ((handleKey k st).direction = ⟨0, 1⟩ ∧ st.direction.y ≠ -1) ∨
         ((handleKey k st).direction = ⟨-1, 0⟩ ∧ st.direction.x ≠ 1) ∨
         ((handleKey k st).direction = ⟨1, 0⟩ ∧ st.direction.x ≠ -1)))) := by
  simp only [handleKey]
  split_ifs <;> simp_all [bne_iff_ne]

/-- The same per-event facts for `handleTouchEnd`. -/
theorem handleTouchEnd_fields (dx dy : Int) (st : GameState) :
    (handleTouchEnd dx dy st).snake = st.snake ∧ (handleTouchEnd dx dy st).food = st.food ∧
    (handleTouchEnd dx dy st).score = st.score ∧
    (handleTouchEnd dx dy st).gameOver = st.gameOver ∧
    (handleTouchEnd dx dy st).isPlaying = (if st.gameOver = true then st.isPlaying else true) ∧
    ((handleTouchEnd dx dy st).direction = st.direction ∨
      (st.gameOver = false ∧
        (((handleTouchEnd dx dy st).direction = ⟨0, -1⟩ ∧ st.direction.y ≠ 1) ∨
         ((handleTouchEnd dx dy st).direction = ⟨0, 1⟩ ∧ st.direction.y ≠ -1) ∨
         ((handleTouchEnd dx dy st).direction = ⟨-1, 0⟩ ∧ st.direction.x ≠ 1) ∨
         ((handleTouchEnd dx dy st).direction = ⟨1, 0⟩ ∧ st.direction.x ≠ -1)))) := by
  simp only [handleTouchEnd]
  split_ifs <;> simp_all [bne_iff_ne]

theorem newHeadOf_ne (c d : Cell) (hc : inBoard c) (hd : d ∈ DIRS) :
    newHeadOf c d ≠ c := by
  simp only [inBoard, BOARD_SIZE] at hc
  obtain ⟨hx0, hx1, hy0, hy1⟩ := hc
  rcases (mem_DIRS_iff d).1 hd with rfl | rfl | rfl | rfl <;> intro he
  · exact tmod_shift_ne c.y (-1) hy0 hy1 (Or.inl rfl) (congrArg Cell.y he)
  · exact tmod_shift_ne c.y 1 hy0 hy1 (Or.inr rfl) (congrArg Cell.y he)
  · exact tmod_shift_ne c.x (-1) hx0 hx1 (Or.inl rfl) (congrArg Cell.x he)
  · exact tmod_shift_ne c.x 1 hx0 hx1 (Or.inr rfl) (congrArg Cell.x he)


/-- The state invariant maintained by every event: the pending direction is one
of the four unit vectors, every snake cell lies on the board, the snake length
is exactly `score + 1`, and a finished game has positive score. -/
def StateInv (st : GameState) : Prop :=
  st.direction ∈ DIRS ∧ (∀ c ∈ st.snake, inBoard c) ∧
  st.snake.length = st.score + 1 ∧ (st.gameOver = true → 1 ≤ st.score)

theorem tick_inv (ds : List Cell) (st st' : GameState) (h : tick ds st = some st')
    (ih : StateInv st) : StateInv st' := by
  obtain ⟨hdir, hcells, hlen, hgo⟩ := ih
  simp only [tick] at h
  by_cases hguard : (st.gameOver || !st.isPlaying) = true
  · rw [if_pos hguard] at h
    injection h with h
    subst h
    exact ⟨hdir, hcells, hlen, hgo⟩
  · rw [if_neg hguard] at h
    have hgof : st.gameOver = false := by
      cases hx : st.gameOver
      · rfl
      · exact absurd (by simp [hx]) hguard
    rcases hsn : st.snake with _ | ⟨c, t⟩
    · rw [hsn] at h
      simp at h
    · rw [hsn] at h
      simp only [] at h
      have hcb : inBoard c := hcells c (by rw [hsn]; exact List.mem_cons_self _ _)
      have hnb : inBoard (newHeadOf c st.direction) := newHeadOf_inBoard c st.direction hcb hdir
      have hnc : newHeadOf c st.direction ≠ c := newHeadOf_ne c st.direction hcb hdir
      rw [hsn] at hlen
      by_cases hcol : ((c :: t).any fun s => cellEq s (newHeadOf c st.direction)) = true
      · rw [if_pos hcol] at h
        injection h with h
        subst h
        have hmem : newHeadOf c st.direction ∈ c :: t := (any_cellEq_iff _ _).1 hcol
        have htne : newHeadOf c st.direction ∈ t := by
          rcases List.mem_cons.1 hmem with h1 | h1
          · exact absurd h1 hnc
          · exact h1
        have htl : 1 ≤ t.length := List.length_pos.2 (List.ne_nil_of_mem htne)
        refine ⟨hdir, ?_, ?_, ?_⟩
        · intro x hx
          exact hcells x (by rw [hsn]; exact hx)
        · simp only [hsn]
          exact hlen
        · intro _
          show 1 ≤ st.score
          simp only [List.length_cons] at hlen
          omega
      · rw [if_neg hcol] at h
        by_cases hfood : cellEq (newHeadOf c st.direction) st.food = true
        · rw [if_pos hfood] at h
          rcases hgr : getRandomFood ds (newHeadOf c st.direction :: c :: t) with _ | f <;>
            rw [hgr] at h
          · simp at h
          · injection h with h
            subst h
            refine ⟨hdir, ?_, ?_, ?_⟩
            · intro x hx
              rcases List.mem_cons.1 hx with rfl | hx
              · exact hnb
              · exact hcells x (by rw [hsn]; exact hx)
            · simp only [List.length_cons] at hlen ⊢
              omega
            · intro hfalse
              rw [hgof] at hfalse
              cases hfalse
        · rw [if_neg hfood] at h
          injection h with h
          subst h
          refine ⟨hdir, ?_, ?_, ?_⟩
          · intro x hx
            rcases List.mem_cons.1 hx with rfl | hx
            · exact hnb
            · exact hcells x (by rw [hsn]; exact List.dropLast_subset _ hx)
          · simp only [List.length_cons, List.length_dropLast_cons] at hlen ⊢
            omega
          · intro hfalse
            rw [hgof] at hfalse
            cases hfalse

theorem restart_inv (ds : List Cell) (st' : GameState)
    (h : handleRestart ds = some st') : StateInv st' := by
  simp only [handleRestart] at h
  rcases hgr : getRandomFood ds INITIAL_SNAKE with _ | f <;> rw [hgr] at h
  · simp at h
  · injection h with h
    subst h
    refine ⟨by simp [INITIAL_DIRECTION, DIRS], ?_, by simp [INITIAL_SNAKE], by simp⟩
    intro x hx
    simp only [INITIAL_SNAKE, List.mem_singleton] at hx
    subst hx
    simp [inBoard, BOARD_SIZE]

theorem reachable_inv (st : GameState) (h : Reachable st) : StateInv st := by
  induction h with
  | init draws f hb hf =>
      refine ⟨by simp [INITIAL_DIRECTION, DIRS], ?_, by simp [INITIAL_SNAKE], by simp⟩
      intro x hx
      simp only [INITIAL_SNAKE, List.mem_singleton] at hx
      subst hx
      simp [inBoard, BOARD_SIZE]
  | step e st st' hb hr h ih =>
      cases e with
      | tick ds => exact tick_inv ds st st' h ih
      | restart ds => exact restart_inv ds st' h
      | key k =>
          injection h with h
          subst h
          obtain ⟨hdir, hcells, hlen, hgo⟩ := ih
          obtain ⟨hsn, hfd, hsc, hgo2, hip, hdir2⟩ := handleKey_fields k st
          refine ⟨?_, ?_, ?_, ?_⟩
          · rcases hdir2 with hd | ⟨_, ⟨hd, _⟩ | ⟨hd, _⟩ | ⟨hd, _⟩ | ⟨hd, _⟩⟩ <;> rw [hd]
            · exact hdir
            all_goals simp [DIRS]
          · intro x hx
            rw [hsn] at hx
            exact hcells x hx
          · rw [hsn, hsc]
            exact hlen
          · rw [hgo2, hsc]
            exact hgo
      | touch dx dy =>
          injection h with h
          subst h
          obtain ⟨hdir, hcells, hlen, hgo⟩ := ih
          obtain ⟨hsn, hfd, hsc, hgo2, hip, hdir2⟩ := handleTouchEnd_fields dx dy st
          refine ⟨?_, ?_, ?_, ?_⟩
          · rcases hdir2 with hd | ⟨_, ⟨hd, _⟩ | ⟨hd, _⟩ | ⟨hd, _⟩ | ⟨hd, _⟩⟩ <;> rw [hd]
            · exact hdir
            all_goals simp [DIRS]
          · intro x hx
            rw [hsn] at hx
            exact hcells x hx
          · rw [hsn, hsc]
            exact hlen
          · rw [hgo2, hsc]
            exact hgo

instance (draws : List Cell) : Decidable (boardDraws draws) := by
  unfold boardDraws; infer_instance

/-- The keys `handleKey` recognizes. -/
def recognizedKeys : List String :=
  ["ArrowUp", "w", "W", "ArrowDown", "s", "S", "ArrowLeft", "a", "A", "ArrowRight", "d", "D"]

/-- C1: counterexample — from a reachable state whose most recent tick consumed
Up (snake moved {7,7}→{7,6}), the intent sequence [Left, Down] arriving before
the next tick makes that tick consume Down, the exact opposite of Up: the
reversal guard compares against the pending direction, not the last consumed
one, so a reversal slips through a perpendicular intermediate intent. -/
theorem C1_counterexample :
    Reachable ⟨[⟨7, 7⟩], ⟨0, -1⟩, ⟨0, 0⟩, 0, false, true⟩ ∧
    tick [] ⟨[⟨7, 7⟩], ⟨0, -1⟩, ⟨0, 0⟩, 0, false, true⟩ =
      some ⟨[⟨7, 6⟩], ⟨0, -1⟩, ⟨0, 0⟩, 0, false, true⟩ ∧
    handleKey "s" (handleKey "a" ⟨[⟨7, 6⟩], ⟨0, -1⟩, ⟨0, 0⟩, 0, false, true⟩) =
      ⟨[⟨7, 6⟩], ⟨0, 1⟩, ⟨0, 0⟩, 0, false, true⟩ ∧
    tick [] ⟨[⟨7, 6⟩], ⟨0, 1⟩, ⟨0, 0⟩, 0, false, true⟩ =
      some ⟨[⟨7, 7⟩], ⟨0, 1⟩, ⟨0, 0⟩, 0, false, true⟩ ∧
    (⟨0, 1⟩ : Cell) = ⟨-(⟨0, -1⟩ : Cell).x, -(⟨0, -1⟩ : Cell).y⟩ := by
  refine ⟨?_, by decide, by decide, by decide, by decide⟩
  exact Reachable.step (Event.key "w") ⟨[⟨7, 7⟩], ⟨0, -1⟩, ⟨0, 0⟩, 0, false, false⟩ _
    (by decide) (Reachable.init [⟨0, 0⟩] ⟨0, 0⟩ (by decide) (by decide)) (by decide)

/-- C1 (amended): the reversal guard compares an intent against the current
pending direction, not against the direction last consumed by a tick: from any
state whose pending direction is a unit vector, a single key or touch intent
never yields the exact opposite of that pending direction (but a reversal of
the committed direction remains possible through an intermediate perpendicular
intent, as the counterexample shows). -/
theorem C1_amended (st : GameState) (hd : st.direction ∈ DIRS) :
    (∀ k, (handleKey k st).direction ≠ ⟨-st.direction.x, -st.direction.y⟩) ∧
    (∀ dx dy : Int, (handleTouchEnd dx dy st).direction ≠ ⟨-st.direction.x, -st.direction.y⟩) := by
  constructor
  · intro k
    obtain ⟨-, -, -, -, -, hdir2⟩ := handleKey_fields k st
    rcases (mem_DIRS_iff st.direction).1 hd with hdd | hdd | hdd | hdd <;>
      rcases hdir2 with hd2 | ⟨-, ⟨hd2, hg⟩ | ⟨hd2, hg⟩ | ⟨hd2, hg⟩ | ⟨hd2, hg⟩⟩ <;>
        simp_all [Cell.mk.injEq]
  · intro dx dy
    obtain ⟨-, -, -, -, -, hdir2⟩ := handleTouchEnd_fields dx dy st
    rcases (mem_DIRS_iff st.direction).1 hd with hdd | hdd | hdd | hdd <;>
      rcases hdir2 with hd2 | ⟨-, ⟨hd2, hg⟩ | ⟨hd2, hg⟩ | ⟨hd2, hg⟩ | ⟨hd2, hg⟩⟩ <;>
        simp_all [Cell.mk.injEq]

/-- C1 witness: a single Down intent against pending direction Up is rejected. -/
theorem C1_witness :
    (handleKey "s" ⟨[⟨7, 6⟩], ⟨0, -1⟩, ⟨0, 0⟩, 0, false, true⟩).direction ≠
      ⟨-(⟨[⟨7, 6⟩], ⟨0, -1⟩, ⟨0, 0⟩, 0, false, true⟩ : GameState).direction.x,
       -(⟨[⟨7, 6⟩], ⟨0, -1⟩, ⟨0, 0⟩, 0, false, true⟩ : GameState).direction.y⟩ :=
  (C1_amended ⟨[⟨7, 6⟩], ⟨0, -1⟩, ⟨0, 0⟩, 0, false, true⟩ (by decide)).1 "s"

/-- C2: counterexample — an unrecognized key ("q") and a degenerate swipe
(|dx|,|dy| ≤ 20) arriving while the game is NotStarted both flip `isPlaying`
to true: malformed input does change the NotStarted/Running flag. -/
theorem C2_counterexample :
    (⟨[⟨7, 7⟩], ⟨0, -1⟩, ⟨0, 0⟩, 0, false, false⟩ : GameState).isPlaying = false ∧
    handleKey "q" ⟨[⟨7, 7⟩], ⟨0, -1⟩, ⟨0, 0⟩, 0, false, false⟩ =
      ⟨[⟨7, 7⟩], ⟨0, -1⟩, ⟨0, 0⟩, 0, false, true⟩ ∧
    handleTouchEnd 5 3 ⟨[⟨7, 7⟩], ⟨0, -1⟩, ⟨0, 0⟩, 0, false, false⟩ =
      ⟨[⟨7, 7⟩], ⟨0, -1⟩, ⟨0, 0⟩, 0, false, true⟩ := by
  decide

/-- C2 (amended): malformed input — an unrecognized key, or a touch whose
deltas satisfy |dx| ≤ 20 and |dy| ≤ 20 — produces no direction intent and
leaves snake, direction, food, score and gameOver unchanged; but unless the
game is over it does set the Running flag (the handlers start the game on any
event before examining it). -/
theorem C2_amended (st : GameState) :
    (∀ k, k ∉ recognizedKeys →
      handleKey k st = if st.gameOver then st else { st with isPlaying := true }) ∧
    (∀ dx dy : Int, dx.natAbs ≤ 20 → dy.natAbs ≤ 20 →
      handleTouchEnd dx dy st = if st.gameOver then st else { st with isPlaying := true }) := by
  obtain ⟨sn, dir, fd, sc, go, ip⟩ := st
  constructor
  · intro k hk
    simp only [recognizedKeys, List.mem_cons, List.not_mem_nil, or_false, not_or] at hk
    obtain ⟨h1, h2, h3, h4, h5, h6, h7, h8, h9, h10, h11, h12⟩ := hk
    cases go <;> cases ip <;>
      simp [handleKey, h1, h2, h3, h4, h5, h6, h7, h8, h9, h10, h11, h12]
  · intro dx dy hdx hdy
    have h1 : ¬(dx > 20) := by omega
    have h2 : ¬(dx < -20) := by omega
    have h3 : ¬(dy > 20) := by omega
    have h4 : ¬(dy < -20) := by omega
    cases go <;> cases ip <;> simp [handleTouchEnd, h1, h2, h3, h4]

/-- C2 witness: the amended claim at the NotStarted initial state, with the
unrecognized key "q" and a 3×(-2) swipe. -/
theorem C2_witness :
    handleKey "q" ⟨[⟨7, 7⟩], ⟨0, -1⟩, ⟨1, 1⟩, 0, false, false⟩ =
      ⟨[⟨7, 7⟩], ⟨0, -1⟩, ⟨1, 1⟩, 0, false, true⟩ ∧
    handleTouchEnd 3 (-2) ⟨[⟨7, 7⟩], ⟨0, -1⟩, ⟨1, 1⟩, 0, false, false⟩ =
      ⟨[⟨7, 7⟩], ⟨0, -1⟩, ⟨1, 1⟩, 0, false, true⟩ := by
  constructor
  · have h := (C2_amended ⟨[⟨7, 7⟩], ⟨0, -1⟩, ⟨1, 1⟩, 0, false, false⟩).1 "q" (by decide)
    simpa using h
  · have h := (C2_amended ⟨[⟨7, 7⟩], ⟨0, -1⟩, ⟨1, 1⟩, 0, false, false⟩).2 3 (-2)
      (by decide) (by decide)
    simpa using h

/-- C3: a tick whose wrapped new head coincides with any current snake cell
(the not-yet-dropped tail included) sets gameOver and leaves snake, food and
score exactly as they were. -/
theorem C3_self_collision (draws : List Cell) (st : GameState) (c : Cell) (t : List Cell)
    (hp : st.isPlaying = true) (hg : st.gameOver = false) (hs : st.snake = c :: t)
    (hc : newHeadOf c st.direction ∈ st.snake) :
    tick draws st = some { st with gameOver := true } := by
  have hguard : (st.gameOver || !st.isPlaying) = false := by rw [hg, hp]; rfl
  have hany : ((c :: t).any fun s => cellEq s (newHeadOf c st.direction)) = true :=
    (any_cellEq_iff _ _).2 (hs ▸ hc)
  simp [tick, hguard, hs, hany]

/-- C3 witness: the spec scenario — a length-3 snake moving into its own second
segment ends the game with the snake sequence, food and score unchanged. -/
theorem C3_witness :
    tick [] ⟨[⟨7, 7⟩, ⟨7, 8⟩, ⟨8, 8⟩], ⟨0, 1⟩, ⟨0, 0⟩, 2, false, true⟩ =
      some ⟨[⟨7, 7⟩, ⟨7, 8⟩, ⟨8, 8⟩], ⟨0, 1⟩, ⟨0, 0⟩, 2, true, true⟩ :=
  C3_self_collision [] ⟨[⟨7, 7⟩, ⟨7, 8⟩, ⟨8, 8⟩], ⟨0, 1⟩, ⟨0, 0⟩, 2, false, true⟩
    ⟨7, 7⟩ [⟨7, 8⟩, ⟨8, 8⟩] rfl rfl rfl (by decide)

/-- C4: a tick onto the food cell (hitting no snake cell) prepends the new head
(length +1), bumps the score by exactly 1, and replaces the food with a draw
that misses the grown snake (a board cell whenever the draws are board cells). -/
theorem C4_eat_food (draws : List Cell) (st : GameState) (c : Cell) (t : List Cell) (f : Cell)
    (hp : st.isPlaying = true) (hg : st.gameOver = false) (hs : st.snake = c :: t)
    (hnc : newHeadOf c st.direction ∉ st.snake)
    (hf : newHeadOf c st.direction = st.food)
    (hdraw : getRandomFood draws (newHeadOf c st.direction :: st.snake) = some f) :
    tick draws st = some { st with snake := newHeadOf c st.direction :: st.snake,
                                   food := f, score := st.score + 1 } ∧
    (newHeadOf c st.direction :: st.snake).length = st.snake.length + 1 ∧
    f ∉ newHeadOf c st.direction :: st.snake ∧
    (boardDraws draws → inBoard f) := by
  have hguard : (st.gameOver || !st.isPlaying) = false := by rw [hg, hp]; rfl
  have hnc' : newHeadOf c st.direction ∉ c :: t := hs ▸ hnc
  have hany : ((c :: t).any fun s => cellEq s (newHeadOf c st.direction)) = false := by
    cases hx : ((c :: t).any fun s => cellEq s (newHeadOf c st.direction))
    · rfl
    · exact absurd ((any_cellEq_iff _ _).1 hx) hnc'
  have hfood : cellEq (newHeadOf c st.direction) st.food = true := (cellEq_iff _ _).2 hf
  refine ⟨?_, by simp, (getRandomFood_spec _ _ _ hdraw).1, ?_⟩
  · rw [hs] at hdraw
    simp [tick, hguard, hs, hany, hfood, hdraw]
  · intro hb
    exact hb f (getRandomFood_spec _ _ _ hdraw).2

/-- C4 witness: the spec scenario — snake [{7,7}] moving up with food at {7,6}
eats it: snake [{7,6},{7,7}], score 1, and the replacement food (drawn at
{0,0}) misses the new snake. -/
theorem C4_witness :
    tick [⟨0, 0⟩] ⟨[⟨7, 7⟩], ⟨0, -1⟩, ⟨7, 6⟩, 0, false, true⟩ =
      some ⟨[⟨7, 6⟩, ⟨7, 7⟩], ⟨0, -1⟩, ⟨0, 0⟩, 1, false, true⟩ ∧
    (⟨0, 0⟩ : Cell) ∉ [(⟨7, 6⟩ : Cell), ⟨7, 7⟩] := by
  have h := C4_eat_food [⟨0, 0⟩] ⟨[⟨7, 7⟩], ⟨0, -1⟩, ⟨7, 6⟩, 0, false, true⟩ ⟨7, 7⟩ [] ⟨0, 0⟩
    rfl rfl rfl (by decide) (by decide) (by decide)
  exact ⟨h.1, h.2.2.1⟩

/-- C5: a tick hitting neither snake nor food prepends the new head and drops
the last cell, keeping the length; and across every successful tick the snake
length either stays (with the score) or grows by exactly 1 together with the
score (food-eaten ticks), so length is non-decreasing. -/
theorem C5_normal_move :
    (∀ (draws : List Cell) (st : GameState) (c : Cell) (t : List Cell),
      st.isPlaying = true → st.gameOver = false → st.snake = c :: t →
      newHeadOf c st.direction ∉ st.snake →
      newHeadOf c st.direction ≠ st.food →
      tick draws st =
        some { st with snake := newHeadOf c st.direction :: (c :: t).dropLast } ∧
      (newHeadOf c st.direction :: (c :: t).dropLast).length = st.snake.length) ∧
    (∀ (draws : List Cell) (st st' : GameState), tick draws st = some st' →
      (st'.snake.length = st.snake.length ∧ st'.score = st.score) ∨
      (st'.snake.length = st.snake.length + 1 ∧ st'.score = st.score + 1)) := by
  constructor
  · intro draws st c t hp hg hs hnc hne
    have hguard : (st.gameOver || !st.isPlaying) = false := by rw [hg, hp]; rfl
    have hnc' : newHeadOf c st.direction ∉ c :: t := hs ▸ hnc
    have hany : ((c :: t).any fun s => cellEq s (newHeadOf c st.direction)) = false := by
      cases hx : ((c :: t).any fun s => cellEq s (newHeadOf c st.direction))
      · rfl
      · exact absurd ((any_cellEq_iff _ _).1 hx) hnc'
    have hfood : cellEq (newHeadOf c st.direction) st.food = false := by
      cases hx : cellEq (newHeadOf c st.direction) st.food
      · rfl
      · exact absurd ((cellEq_iff _ _).1 hx) hne
    constructor
    · simp [tick, hguard, hs, hany, hfood]
    · simp [hs, List.length_dropLast_cons]
  · intro draws st st' h
    simp only [tick] at h
    by_cases hguard : (st.gameOver || !st.isPlaying) = true
    · rw [if_pos hguard] at h
      injection h with h
      subst h
      exact Or.inl ⟨rfl, rfl⟩
    · rw [if_neg hguard] at h
      rcases hsn : st.snake with _ | ⟨c, t⟩
      · rw [hsn] at h
        simp at h
      · rw [hsn] at h
        simp only [] at h
        by_cases hcol : ((c :: t).any fun s => cellEq s (newHeadOf c st.direction)) = true
        · rw [if_pos hcol] at h
          injection h with h
          subst h
          exact Or.inl ⟨rfl, rfl⟩
        · rw [if_neg hcol] at h
          by_cases hfood : cellEq (newHeadOf c st.direction) st.food = true
          · rw [if_pos hfood] at h
            rcases hgr : getRandomFood draws (newHeadOf c st.direction :: c :: t) with _ | f <;>
              rw [hgr] at h
            · simp at h
            · injection h with h
              subst h
              right
              constructor
              · simp [hsn]
              · rfl
          · rw [if_neg hfood] at h
            injection h with h
            subst h
            left
            constructor
            · simp [hsn, List.length_dropLast_cons]
            · rfl

/-- C5 witness: a normal move of the single-cell snake keeps length 1 and
score 0. -/
theorem C5_witness :
    tick [] ⟨[⟨7, 7⟩], ⟨0, -1⟩, ⟨0, 0⟩, 0, false, true⟩ =
      some ⟨[⟨7, 6⟩], ⟨0, -1⟩, ⟨0, 0⟩, 0, false, true⟩ := by
  have h := C5_normal_move.1 [] ⟨[⟨7, 7⟩], ⟨0, -1⟩, ⟨0, 0⟩, 0, false, true⟩ ⟨7, 7⟩ []
    rfl rfl rfl (by decide) (by decide)
  exact h.1

/-- C6: for every head on the 15×15 board and each of the four unit directions
the wrapped new head is on the board (toroidal wrap, e.g. {7,0} moving up
yields {7,14}); consequently every snake cell of every reachable state lies on
the board. -/
theorem C6_wrap :
    (∀ c d : Cell, inBoard c → d ∈ DIRS → inBoard (newHeadOf c d)) ∧
    newHeadOf ⟨7, 0⟩ ⟨0, -1⟩ = ⟨7, 14⟩ ∧
    (∀ st : GameState, Reachable st → ∀ c ∈ st.snake, inBoard c) := by
  refine ⟨newHeadOf_inBoard, by decide, ?_⟩
  intro st h c hc
  exact (reachable_inv st h).2.1 c hc

/-- C6 witness: the wrap scenario head and the initial snake cell are on the
board. -/
theorem C6_witness :
    inBoard (newHeadOf ⟨7, 0⟩ ⟨0, -1⟩) ∧ inBoard (⟨7, 7⟩ : Cell) := by
  constructor
  · exact C6_wrap.1 ⟨7, 0⟩ ⟨0, -1⟩ (by decide) (by decide)
  · exact C6_wrap.2.2 ⟨[⟨7, 7⟩], ⟨0, -1⟩, ⟨0, 0⟩, 0, false, false⟩
      (Reachable.init [⟨0, 0⟩] ⟨0, 0⟩ (by decide) (by decide)) ⟨7, 7⟩ (by decide)

/-- C7: every successful `getRandomFood` draw misses the snake and comes from
the draw stream (hence is a board cell when the stream is); and whenever the
snake leaves at least one board cell free, some stream of board draws makes
the rejection sampler succeed with a food cell outside the snake. -/
theorem C7_food_free :
    (∀ (draws snake : List Cell) (f : Cell), getRandomFood draws snake = some f →
      f ∉ snake ∧ (boardDraws draws → inBoard f)) ∧
    (∀ snake : List Cell, (∃ c, inBoard c ∧ c ∉ snake) →
      ∃ draws, boardDraws draws ∧
        ∃ f, getRandomFood draws snake = some f ∧ f ∉ snake) := by
  constructor
  · intro draws snake f h
    rcases getRandomFood_spec draws snake f h with ⟨h1, h2⟩
    exact ⟨h1, fun hb => hb f h2⟩
  · rintro snake ⟨c, hcb, hc⟩
    refine ⟨[c], ?_, c, getRandomFood_of_free snake c hc, hc⟩
    intro x hx
    rw [List.mem_singleton] at hx
    subst hx
    exact hcb

/-- C7 witness: the draw {3,3} against snake [{7,7}] is accepted, misses the
snake and is a board cell. -/
theorem C7_witness :
    (⟨3, 3⟩ : Cell) ∉ [(⟨7, 7⟩ : Cell)] ∧ inBoard (⟨3, 3⟩ : Cell) := by
  have h := C7_food_free.1 [⟨3, 3⟩] [⟨7, 7⟩] ⟨3, 3⟩ (by decide)
  exact ⟨h.1, h.2 (by decide)⟩

/-- C8: restart rebuilds the exact initial configuration — snake [{7,7}],
direction {0,-1}, score 0, status NotStarted (gameOver and isPlaying both
false, so a tick leaves the state untouched until a new direction intent
starts the game) and a food cell different from {7,7}. -/
theorem C8_restart (draws : List Cell) (st' : GameState)
    (h : handleRestart draws = some st') :
    st'.snake = [⟨7, 7⟩] ∧ st'.direction = ⟨0, -1⟩ ∧ st'.score = 0 ∧
    st'.gameOver = false ∧ st'.isPlaying = false ∧ st'.food ≠ ⟨7, 7⟩ ∧
    (∀ ds, tick ds st' = some st') := by
  simp only [handleRestart] at h
  rcases hgr : getRandomFood draws INITIAL_SNAKE with _ | f <;> rw [hgr] at h
  · simp at h
  · injection h with h
    subst h
    have hf := (getRandomFood_spec _ _ _ hgr).1
    refine ⟨rfl, rfl, rfl, rfl, rfl, ?_, ?_⟩
    · intro he
      apply hf
      rw [show f = ⟨7, 7⟩ from he]
      decide
    · intro ds
      simp [tick]

/-- C8 witness: restart with draw stream [{0,0}] yields the initial
configuration with food {0,0} ≠ {7,7} and an idle clock. -/
theorem C8_witness :
    (⟨[⟨7, 7⟩], ⟨0, -1⟩, ⟨0, 0⟩, 0, false, false⟩ : GameState).food ≠ ⟨7, 7⟩ ∧
    tick [] ⟨[⟨7, 7⟩], ⟨0, -1⟩, ⟨0, 0⟩, 0, false, false⟩ =
      some ⟨[⟨7, 7⟩], ⟨0, -1⟩, ⟨0, 0⟩, 0, false, false⟩ := by
  have h := C8_restart [⟨0, 0⟩] ⟨[⟨7, 7⟩], ⟨0, -1⟩, ⟨0, 0⟩, 0, false, false⟩ (by decide)
  exact ⟨h.2.2.2.2.2.1, h.2.2.2.2.2.2 []⟩

/-- C9: GameOver is terminal — a tick, key or touch event leaves a finished
game completely unchanged (only restart rebuilds the state) — and the state
machine never steps while the game is not running: a tick in a NotStarted
state is also the identity. -/
theorem C9_terminal :
    (∀ (st : GameState) (draws : List Cell), st.gameOver = true → tick draws st = some st) ∧
    (∀ (st : GameState) (k : String), st.gameOver = true → handleKey k st = st) ∧
    (∀ (st : GameState) (dx dy : Int), st.gameOver = true → handleTouchEnd dx dy st = st) ∧
    (∀ (st : GameState) (draws : List Cell), st.isPlaying = false → tick draws st = some st) := by
  refine ⟨?_, ?_, ?_, ?_⟩
  · intro st ds h
    simp [tick, h]
  · intro st k h
    simp [handleKey, h]
  · intro st dx dy h
    simp [handleTouchEnd, h]
  · intro st ds h
    simp [tick, h]

/-- C9 witness: at a concrete finished game no event changes anything, and a
NotStarted tick is the identity. -/
theorem C9_witness :
    tick [] ⟨[⟨7, 7⟩], ⟨0, -1⟩, ⟨0, 0⟩, 3, true, true⟩ =
      some ⟨[⟨7, 7⟩], ⟨0, -1⟩, ⟨0, 0⟩, 3, true, true⟩ ∧
    handleKey "w" ⟨[⟨7, 7⟩], ⟨0, -1⟩, ⟨0, 0⟩, 3, true, true⟩ =
      ⟨[⟨7, 7⟩], ⟨0, -1⟩, ⟨0, 0⟩, 3, true, true⟩ ∧
    handleTouchEnd 30 0 ⟨[⟨7, 7⟩], ⟨0, -1⟩, ⟨0, 0⟩, 3, true, true⟩ =
      ⟨[⟨7, 7⟩], ⟨0, -1⟩, ⟨0, 0⟩, 3, true, true⟩ ∧
    tick [] ⟨[⟨7, 7⟩], ⟨0, -1⟩, ⟨0, 0⟩, 0, false, false⟩ =
      some ⟨[⟨7, 7⟩], ⟨0, -1⟩, ⟨0, 0⟩, 0, false, false⟩ :=
  ⟨C9_terminal.1 _ [] rfl, C9_terminal.2.1 _ "w" rfl,
   C9_terminal.2.2.1 _ 30 0 rfl, C9_terminal.2.2.2 _ [] rfl⟩

/-- C10: while the snake has length 1 the self-collision branch is
unreachable — a one-unit move modulo 15 from a board cell never returns to the
same cell, so the collision scan over a singleton snake is false — and hence a
reachable finished game always has score at least 1 (the snake must have eaten
to be long enough to hit itself). -/
theorem C10_gameOver_score :
    (∀ c d : Cell, inBoard c → d ∈ DIRS →
      newHeadOf c d ≠ c ∧ (([c].any fun s => cellEq s (newHeadOf c d)) = false)) ∧
    (∀ st : GameState, Reachable st → st.gameOver = true → 1 ≤ st.score) := by
  constructor
  · intro c d hc hd
    have hne := newHeadOf_ne c d hc hd
    refine ⟨hne, ?_⟩
    cases hx : ([c].any fun s => cellEq s (newHeadOf c d))
    · rfl
    · exact absurd (List.mem_singleton.1 ((any_cellEq_iff _ _).1 hx)) hne
  · intro st h hg
    exact (reachable_inv st h).2.2.2 hg

/-- C10 witness: the singleton collision scan is false at the initial cell,
and a concrete reachable game-over state (reached by eating one food and then
reversing through two quick intents) has score 1. -/
theorem C10_witness :
    newHeadOf ⟨7, 7⟩ ⟨0, -1⟩ ≠ ⟨7, 7⟩ ∧
    1 ≤ (⟨[⟨7, 6⟩, ⟨7, 7⟩], ⟨0, 1⟩, ⟨0, 0⟩, 1, true, true⟩ : GameState).score := by
  have hr0 : Reachable ⟨[⟨7, 7⟩], ⟨0, -1⟩, ⟨7, 6⟩, 0, false, false⟩ :=
    Reachable.init [⟨7, 6⟩] ⟨7, 6⟩ (by decide) (by decide)
  have hr1 : Reachable ⟨[⟨7, 7⟩], ⟨0, -1⟩, ⟨7, 6⟩, 0, false, true⟩ :=
    Reachable.step (Event.key "w") _ _ (by decide) hr0 (by decide)
  have hr2 : Reachable ⟨[⟨7, 6⟩, ⟨7, 7⟩], ⟨0, -1⟩, ⟨0, 0⟩, 1, false, true⟩ :=
    Reachable.step (Event.tick [⟨0, 0⟩]) _ _ (by decide) hr1 (by decide)
  have hr3 : Reachable ⟨[⟨7, 6⟩, ⟨7, 7⟩], ⟨-1, 0⟩, ⟨0, 0⟩, 1, false, true⟩ :=
    Reachable.step (Event.key "a") _ _ (by decide) hr2 (by decide)
  have hr4 : Reachable ⟨[⟨7, 6⟩, ⟨7, 7⟩], ⟨0, 1⟩, ⟨0, 0⟩, 1, false, true⟩ :=
    Reachable.step (Event.key "s") _ _ (by decide) hr3 (by decide)
  have hr5 : Reachable ⟨[⟨7, 6⟩, ⟨7, 7⟩], ⟨0, 1⟩, ⟨0, 0⟩, 1, true, true⟩ :=
    Reachable.step (Event.tick []) _ _ (by decide) hr4 (by decide)
  exact ⟨(C10_gameOver_score.1 ⟨7, 7⟩ ⟨0, -1⟩ (by decide) (by decide)).1,
         C10_gameOver_score.2 _ hr5 rfl⟩
